import Mathlib

/-!
BusTub `LRUReplacer` (src/buffer/lru_replacer.cpp) and `RowMatrix`
(src/include/primer/p0_starter.h)

A shallow embedding of the replacer: the candidate list `frames`
(a `std::list<frame_id_t>`), the position index `map_frame_to_it`
(a map from frame id to list iterator) and the four operations
`Victim`, `Pin`, `Unpin`, `Size`.

List iterators are modelled explicitly.  Every node of the list carries a
handle (its address in the source); an iterator is either the handle of a node
or the past-the-end iterator.  A call that does not return a result is modelled
as `none`: erasing through the past-the-end iterator unlinks and frees the
sentinel node of the list, and the run aborts.  Splicing through the
past-the-end iterator also violates the precondition of the C++ standard, but
the library's `splice` returns at once there, and that is what is modelled.

The two data members are declared in `buffer/lru_replacer.h`; their types are the ones the
member calls in `lru_replacer.cpp` require: a doubly linked list with stable iterators
(`front`, `pop_front`, `push_back`, `erase(iterator)`, `rbegin`, three-argument `splice`)
and a map with unique keys (`find`, `end`, `erase`, `operator[]`).
-/

set_option autoImplicit false

namespace bustub

/-- Frame identifier, `frame_id_t` in the source (a signed integer on which no arithmetic
is ever performed). -/
abbrev frame_id_t := Int

/-- Iterator of a `std::list<frame_id_t>`: the handle of a node, or past-the-end. -/
inductive ListIter where
  | node (h : Nat)
  | pastEnd
  deriving DecidableEq, Repr

/-- Model of `std::list<frame_id_t>`: the nodes from head to tail, each with the handle
that iterators use to designate it, and the next unused handle. -/
structure StdList where
  nodes : List (Nat × frame_id_t)
  next : Nat
  deriving DecidableEq, Repr

/-- The default-constructed, empty list. -/
def StdList.empty : StdList := { nodes := [], next := 0 }

/-- The values held by the list, head first. -/
def StdList.toList (l : StdList) : List frame_id_t := l.nodes.map Prod.snd

/-- Model of `size()`. -/
def StdList.size (l : StdList) : Nat := l.nodes.length

/-- Model of `begin()`: the first node, or past-the-end when the list is empty. -/
def StdList.begin (l : StdList) : ListIter :=
  match l.nodes with
  | [] => ListIter.pastEnd
  | (h, _) :: _ => ListIter.node h

/-- Model of `end()`: the past-the-end iterator. -/
def StdList.end_ (_l : StdList) : ListIter := ListIter.pastEnd

/-- Model of `rbegin().base()`: a reverse iterator wraps the iterator one past the element
it designates, so the base of `rbegin()` is `end()`. -/
def StdList.rbegin_base (l : StdList) : ListIter := l.end_

/-- Model of `push_back(v)`: a new node with a fresh handle is linked after the tail. -/
def StdList.push_back (l : StdList) (v : frame_id_t) : StdList :=
  { nodes := l.nodes ++ [(l.next, v)], next := l.next + 1 }

/-- Dereference an iterator: the value of the node it designates, if it designates one. -/
def StdList.deref (l : StdList) : ListIter → Option frame_id_t
  | ListIter.pastEnd => none
  | ListIter.node h => (l.nodes.find? (fun p => p.1 = h)).map Prod.snd

/-- Model of `erase(pos)`: unlinks the node `pos` designates.  Undefined (`none`) when `pos`
is not a dereferenceable iterator of the list. -/
def StdList.erase (l : StdList) : ListIter → Option StdList
  | ListIter.pastEnd => none
  | ListIter.node h =>
    match l.nodes.find? (fun p => p.1 = h) with
    | none => none
    | some _ => some { l with nodes := l.nodes.filter (fun p => p.1 ≠ h) }

/-- Model of `splice(begin(), *this, pos)`: relinks the node `pos` designates in front of the
head.  The library's `splice(position, x, i)` first takes the successor `j` of `i` and returns
at once when `position == i || position == j`.  For `pos` past-the-end the successor is the
head of the (circular) list, which is `begin()`, so the call returns with the list unchanged.
Undefined (`none`) when `pos` names a node that is not in the list. -/
def StdList.splice_begin (l : StdList) : ListIter → Option StdList
  | ListIter.pastEnd => some l
  | ListIter.node h =>
    match l.nodes.find? (fun p => p.1 = h) with
    | none => none
    | some n => some { l with nodes := n :: l.nodes.filter (fun p => p.1 ≠ h) }

/-- Model of the position index, a map from frame id to list iterator with unique keys,
kept as an association list. -/
structure FrameMap where
  entries : List (frame_id_t × ListIter)
  deriving DecidableEq, Repr

/-- The empty map. -/
def FrameMap.empty : FrameMap := { entries := [] }

/-- The keys of the map. -/
def FrameMap.keys (m : FrameMap) : List frame_id_t := m.entries.map Prod.fst

/-- Model of `find(k)`: the mapped iterator, or `none` for `find(k) == end()`. -/
def FrameMap.find (m : FrameMap) (k : frame_id_t) : Option ListIter :=
  (m.entries.find? (fun p => p.1 = k)).map Prod.snd

/-- Model of `erase(k)` (and of `erase(it)` for the entry with key `k`). -/
def FrameMap.erase (m : FrameMap) (k : frame_id_t) : FrameMap :=
  { entries := m.entries.filter (fun p => p.1 ≠ k) }

/-- Model of `m[k] = v`. -/
def FrameMap.assign (m : FrameMap) (k : frame_id_t) (v : ListIter) : FrameMap :=
  { entries := (k, v) :: (m.erase k).entries }

/-- State of an `LRUReplacer`: the data members `frames` and `map_frame_to_it`. -/
structure LRUReplacer where
  frames : StdList
  map_frame_to_it : FrameMap
  deriving DecidableEq, Repr

/-- The constructor `LRUReplacer(size_t num_pages) {}` (named `construct`, as the type itself
is `LRUReplacer`): both members are default-constructed
and `num_pages` is not used. -/
def LRUReplacer.construct (_num_pages : Nat) : LRUReplacer :=
  { frames := StdList.empty, map_frame_to_it := FrameMap.empty }

/-- Model of `bool Victim(frame_id_t *frame_id)`.  The argument `out` is the value of `*frame_id`
before the call; the result is the returned flag, the value of `*frame_id` after the call
and the new state. -/
def LRUReplacer.Victim (s : LRUReplacer) (out : frame_id_t) :
    Bool × frame_id_t × LRUReplacer :=
  match s.frames.nodes with
  | [] => (false, out, s)                                   -- if (frames.empty()) return false;
  | (_, v) :: rest =>
    (true, v,                                               -- *frame_id = frames.front();
      { frames := { s.frames with nodes := rest },          -- frames.pop_front();
        map_frame_to_it := s.map_frame_to_it.erase v })     -- map_frame_to_it.erase(*frame_id);

/-- Model of `void Pin(frame_id_t frame_id)`; `none`: the call does not return. -/
def LRUReplacer.Pin (s : LRUReplacer) (frame_id : frame_id_t) : Option LRUReplacer :=
  match s.map_frame_to_it.find frame_id with
  | none => some s
  | some pos =>
    (s.frames.erase pos).map fun fr =>                      -- frames.erase(it->second);
      { frames := fr,
        map_frame_to_it := s.map_frame_to_it.erase frame_id }  -- map_frame_to_it.erase(it);

/-- Model of `void Unpin(frame_id_t frame_id)`; `none`: the call does not return. -/
def LRUReplacer.Unpin (s : LRUReplacer) (frame_id : frame_id_t) : Option LRUReplacer :=
  match s.map_frame_to_it.find frame_id with
  | none =>
    let fr := s.frames.push_back frame_id                   -- frames.push_back(frame_id);
    some { frames := fr,                                    -- map[frame_id] = rbegin().base();
           map_frame_to_it := s.map_frame_to_it.assign frame_id fr.rbegin_base }
  | some pos =>
    if pos ≠ s.frames.begin then
      (s.frames.splice_begin pos).map fun fr =>             -- frames.splice(begin, frames, pos)
        { s with frames := fr }
    else some s

/-- Model of `size_t Size()`: `frames.size()`. -/
def LRUReplacer.Size (s : LRUReplacer) : Nat := s.frames.size

/-- A call of one of the three mutating operations. -/
inductive Call where
  | Unpin (frame_id : frame_id_t)
  | Pin (frame_id : frame_id_t)
  | Victim
  deriving DecidableEq, Repr

/-- Effect of one call on the state (`none`: the call does not return). -/
def LRUReplacer.step (s : LRUReplacer) : Call → Option LRUReplacer
  | Call.Unpin f => s.Unpin f
  | Call.Pin f => s.Pin f
  | Call.Victim => some (s.Victim 0).2.2

/-- Effect of a sequence of calls, in order. -/
def LRUReplacer.run (s : LRUReplacer) : List Call → Option LRUReplacer
  | [] => some s
  | c :: cs => (s.step c).bind fun s1 => s1.run cs

/-- The observations of `k` successive `Victim` calls through the same output variable: the flag and output
value observed after each call, and the final state. -/
def LRUReplacer.Victims (s : LRUReplacer) (out : frame_id_t) :
    Nat → List (Bool × frame_id_t) × LRUReplacer
  | 0 => ([], s)
  | k + 1 =>
    let r := s.Victim out
    let t := r.2.2.Victims r.2.1 k
    ((r.1, r.2.1) :: t.1, t.2)

/-- States reachable from a freshly constructed replacer by calls that return. -/
def Reachable (s : LRUReplacer) : Prop :=
  ∃ (num_pages : Nat) (calls : List Call),
    (LRUReplacer.construct num_pages).run calls = some s

/-- The invariant maintained by the calls that return: the index keys are exactly the frames
in the list, neither repeats a frame, and every stored position is past-the-end. -/
structure Inv (s : LRUReplacer) : Prop where
  mem_iff : ∀ f, f ∈ s.map_frame_to_it.keys ↔ f ∈ s.frames.toList
  nodup : s.frames.toList.Nodup
  keys_nodup : s.map_frame_to_it.keys.Nodup
  stored : ∀ f it, (f, it) ∈ s.map_frame_to_it.entries → it = ListIter.pastEnd

/-! ## Row matrices (src/include/primer/p0_starter.h)

The element type `T` is the template parameter; its `0`, `+` and `*` are those of `T`.
A `std::unique_ptr<RowMatrix<T>>` result is an `Option (RowMatrix T)` with `none` for
`nullptr`; around it, `none` stands for a call that returns no result (an access outside
the allocated array, an `int` overflow in `rows*cols`), as for the replacer.  The operations
take their arguments as matrices: null arguments are outside the model.

The members `rows` and `cols` are `int`s and the array is allocated with `rows*cols`
computed in `int`.  The model keeps the non-negative values and records in the type that
the two dimensions and the number of elements are at most `INT_MAX`. -/

/-- The largest value of an `int` (32 bits). -/
def INT_MAX : Nat := 2147483647

/-- Model of a counted loop `for (int i = 0; i < n; ++i) body(i)` over a state; the loop
returns no result as soon as one iteration does not. -/
def forLoop {σ : Type} (n : Nat) (body : Nat → σ → Option σ) (s : σ) : Option σ :=
  match n with
  | 0 => some s
  | k + 1 => (forLoop k body s).bind (body k)

/-- Model of `RowMatrix<T>`: the `int` members `rows` and `cols` and the contents of the
flattened array `linear`, whose size was computed in `int`. -/
structure RowMatrix (T : Type) where
  rows : Nat
  cols : Nat
  linear : List T
  rows_int : rows ≤ INT_MAX
  cols_int : cols ≤ INT_MAX
  linear_int : linear.length ≤ INT_MAX
  deriving DecidableEq

/-- The constructor `RowMatrix(int r, int c)`: `linear` is a new array of `r * c` elements,
the product being computed in `int`; there is no result when the product overflows.  The
elements of a new array are not initialised; `garbage` gives their values. -/
def RowMatrix.construct {T : Type} (r c : Nat) (hr : r ≤ INT_MAX) (hc : c ≤ INT_MAX)
    (garbage : Nat → T) : Option (RowMatrix T) :=
  if h : r * c ≤ INT_MAX then
    some { rows := r, cols := c, linear := (List.range (r * c)).map garbage,
           rows_int := hr, cols_int := hc,
           linear_int := by simpa using h }
  else none

/-- The row pointer `data_[i]` as an offset into `linear`: `linear + i*cols`, for the `rows`
row pointers that exist. -/
def RowMatrix.data_ {T : Type} (m : RowMatrix T) (i : Nat) : Option Nat :=
  if i < m.rows then some (i * m.cols) else none

/-- Model of `int GetRows()`. -/
def RowMatrix.GetRows {T : Type} (m : RowMatrix T) : Nat := m.rows

/-- Model of `int GetColumns()`. -/
def RowMatrix.GetColumns {T : Type} (m : RowMatrix T) : Nat := m.cols

/-- Model of `T GetElem(int i, int j)`: `data_[i][j]`. -/
def RowMatrix.GetElem {T : Type} (m : RowMatrix T) (i j : Nat) : Option T :=
  (m.data_ i).bind fun base => m.linear[base + j]?

/-- Model of `void SetElem(int i, int j, T val)`: `data_[i][j] = val`. -/
def RowMatrix.SetElem {T : Type} (m : RowMatrix T) (i j : Nat) (val : T) :
    Option (RowMatrix T) :=
  (m.data_ i).bind fun base =>
    if base + j < m.linear.length then
      some { m with linear := m.linear.set (base + j) val,
                    linear_int := by simpa using m.linear_int }
    else none

/-- The element `(i, j)` of a matrix as a value of `T` (`0` outside the matrix). -/
def RowMatrix.entry {T : Type} [Zero T] (m : RowMatrix T) (i j : Nat) : T :=
  (m.GetElem i j).getD 0

/-- Model of `RowMatrixOperations<T>::AddMatrices(mat1, mat2)`. -/
def RowMatrixOperations.AddMatrices {T : Type} [Add T] (mat1 mat2 : RowMatrix T)
    (garbage : Nat → T) : Option (Option (RowMatrix T)) :=
  let rows1 := mat1.GetRows
  let cols1 := mat1.GetColumns
  let rows2 := mat2.GetRows
  let cols2 := mat2.GetColumns
  if rows1 ≠ rows2 ∨ cols1 ≠ cols2 then some none
  else
    (RowMatrix.construct rows1 cols1 mat1.rows_int mat1.cols_int garbage).bind fun ret0 =>
    (forLoop rows1 (fun i ret =>
      forLoop cols1 (fun j ret =>
        (mat1.GetElem i j).bind fun a =>
        (mat2.GetElem i j).bind fun b =>
        ret.SetElem i j (a + b)) ret)
      ret0).map some

/-- Model of `RowMatrixOperations<T>::MultiplyMatrices(mat1, mat2)`. -/
def RowMatrixOperations.MultiplyMatrices {T : Type} [Zero T] [Add T] [Mul T]
    (mat1 mat2 : RowMatrix T) (garbage : Nat → T) : Option (Option (RowMatrix T)) :=
  let rows1 := mat1.GetRows
  let cols1 := mat1.GetColumns
  let rows2 := mat2.GetRows
  let cols2 := mat2.GetColumns
  if cols1 ≠ rows2 then some none
  else
    (RowMatrix.construct rows1 cols2 mat1.rows_int mat2.cols_int garbage).bind fun ret0 =>
    (forLoop rows1 (fun i ret =>
      forLoop cols2 (fun j ret =>
        (forLoop cols1 (fun k val =>
          (mat1.GetElem i k).bind fun a =>
          (mat2.GetElem k j).bind fun b =>
          some (val + a * b)) 0).bind fun val =>
        ret.SetElem i j val) ret)
      ret0).map some

/-! ## The position index -/

theorem FrameMap.find_eq_none_iff (m : FrameMap) (k : frame_id_t) :
    m.find k = none ↔ k ∉ m.keys := by
  cases m with
  | mk es =>
    induction es with
    | nil => simp [FrameMap.find, FrameMap.keys]
    | cons p ps ih =>
      simp only [FrameMap.find, FrameMap.keys] at ih ⊢
      by_cases h : p.1 = k
      · simp [List.find?_cons, h]
      · have h2 : ¬ k = p.1 := fun e => h e.symm
        simp [List.find?_cons, h, h2, ih]

theorem FrameMap.mem_of_find (m : FrameMap) (k : frame_id_t) (it : ListIter)
    (h : m.find k = some it) : (k, it) ∈ m.entries := by
  unfold FrameMap.find at h
  rcases hf : m.entries.find? (fun p => p.1 = k) with _ | p
  · simp [hf] at h
  · simp [hf] at h
    have h1 := List.find?_some hf
    have h2 := List.mem_of_find?_eq_some hf
    simp at h1
    have : p = (k, it) := by
      cases p
      simp_all
    rw [← this]
    exact h2

theorem FrameMap.mem_keys_erase (m : FrameMap) (k f : frame_id_t) :
    f ∈ (m.erase k).keys ↔ f ∈ m.keys ∧ f ≠ k := by
  simp only [FrameMap.keys, FrameMap.erase, List.mem_map, List.mem_filter]
  constructor
  · rintro ⟨p, ⟨hp, hk⟩, rfl⟩
    exact ⟨⟨p, hp, rfl⟩, by simpa using hk⟩
  · rintro ⟨⟨p, hp, rfl⟩, hk⟩
    exact ⟨p, ⟨hp, by simpa using hk⟩, rfl⟩

theorem FrameMap.find_erase (m : FrameMap) (k g : frame_id_t) :
    (m.erase k).find g = if g = k then none else m.find g := by
  cases m with
  | mk es =>
    simp only [FrameMap.find, FrameMap.erase]
    induction es with
    | nil => simp
    | cons p ps ih =>
      obtain ⟨a, b⟩ := p
      by_cases hk : a = k
      · subst hk
        by_cases hg : g = a
        · subst hg
          simp [List.filter_cons] at ih ⊢
        · have hag : ¬ a = g := fun e => hg e.symm
          simpa [List.filter_cons, List.find?_cons, hg, hag] using ih
      · by_cases hag : a = g
        · subst hag
          simp [List.filter_cons, List.find?_cons, hk]
        · simpa [List.filter_cons, List.find?_cons, hk, hag] using ih

theorem FrameMap.keys_erase_nodup (m : FrameMap) (k : frame_id_t) (h : m.keys.Nodup) :
    (m.erase k).keys.Nodup := by
  unfold FrameMap.keys FrameMap.erase at *
  exact (List.Sublist.map Prod.fst (List.filter_sublist m.entries)).nodup h

theorem FrameMap.erase_of_not_mem (m : FrameMap) (k : frame_id_t) (h : k ∉ m.keys) :
    m.erase k = m := by
  cases m with
  | mk es =>
    simp only [FrameMap.erase, FrameMap.keys, FrameMap.mk.injEq] at *
    rw [List.filter_eq_self]
    intro p hp
    have : p.1 ≠ k := fun e => h (List.mem_map.mpr ⟨p, hp, e⟩)
    simpa using this

/-! ## The invariant of the reachable states -/

theorem Inv_construct (num_pages : Nat) : Inv (LRUReplacer.construct num_pages) where
  mem_iff := by simp [LRUReplacer.construct, FrameMap.empty, FrameMap.keys, StdList.empty,
    StdList.toList]
  nodup := by simp [LRUReplacer.construct, StdList.empty, StdList.toList]
  keys_nodup := by simp [LRUReplacer.construct, FrameMap.empty, FrameMap.keys]
  stored := by simp [LRUReplacer.construct, FrameMap.empty]

/-- In a state satisfying the invariant, the index maps every candidate to past-the-end. -/
theorem Inv.find_of_mem {s : LRUReplacer} (hs : Inv s) {f : frame_id_t}
    (hf : f ∈ s.frames.toList) : s.map_frame_to_it.find f = some ListIter.pastEnd := by
  rcases h : s.map_frame_to_it.find f with _ | it
  · exact absurd ((hs.mem_iff f).mpr hf) ((FrameMap.find_eq_none_iff _ _).mp h)
  · rw [hs.stored f it (FrameMap.mem_of_find _ _ _ h)]

theorem Inv.find_of_not_mem {s : LRUReplacer} (hs : Inv s) {f : frame_id_t}
    (hf : f ∉ s.frames.toList) : s.map_frame_to_it.find f = none :=
  (FrameMap.find_eq_none_iff _ _).mpr fun h => hf ((hs.mem_iff f).mp h)

theorem StdList.begin_ne_pastEnd (l : StdList) (f : frame_id_t) (hf : f ∈ l.toList) :
    l.begin ≠ ListIter.pastEnd := by
  unfold StdList.begin StdList.toList at *
  rcases hn : l.nodes with _ | ⟨⟨h, v⟩, rest⟩
  · simp [hn] at hf
  · simp

/-- What `Unpin` does for a frame the index does not hold. -/
theorem LRUReplacer.Unpin_of_find_none (s : LRUReplacer) (f : frame_id_t)
    (h : s.map_frame_to_it.find f = none) :
    s.Unpin f = some
      { frames := { nodes := s.frames.nodes ++ [(s.frames.next, f)], next := s.frames.next + 1 },
        map_frame_to_it := { entries := (f, ListIter.pastEnd) :: s.map_frame_to_it.entries } } := by
  have hk := (FrameMap.find_eq_none_iff _ _).mp h
  simp [LRUReplacer.Unpin, h, StdList.push_back, StdList.rbegin_base, StdList.end_,
    FrameMap.assign, FrameMap.erase_of_not_mem _ _ hk]

/-- What `Pin` does for a frame the index does not hold. -/
theorem LRUReplacer.Pin_of_find_none (s : LRUReplacer) (f : frame_id_t)
    (h : s.map_frame_to_it.find f = none) : s.Pin f = some s := by
  simp [LRUReplacer.Pin, h]

/-- In a state satisfying the invariant, `Unpin` of a candidate splices through the
past-the-end iterator, which leaves the list as it is: the state is unchanged, whatever the
position of the frame in the sequence. -/
theorem Inv.Unpin_of_mem {s : LRUReplacer} (hs : Inv s) {f : frame_id_t}
    (hf : f ∈ s.frames.toList) : s.Unpin f = some s := by
  have hb := (StdList.begin_ne_pastEnd s.frames f hf).symm
  simp [LRUReplacer.Unpin, hs.find_of_mem hf, hb, StdList.splice_begin]

/-- In a state satisfying the invariant, `Pin` of a candidate erases through the
past-the-end iterator: the call does not return. -/
theorem Inv.Pin_of_mem {s : LRUReplacer} (hs : Inv s) {f : frame_id_t}
    (hf : f ∈ s.frames.toList) : s.Pin f = none := by
  simp [LRUReplacer.Pin, hs.find_of_mem hf, StdList.erase]

theorem Inv.Unpin {s t : LRUReplacer} (hs : Inv s) {f : frame_id_t} (h : s.Unpin f = some t) :
    Inv t := by
  by_cases hf : f ∈ s.frames.toList
  · rw [hs.Unpin_of_mem hf] at h
    cases h
    exact hs
  · have hn := hs.find_of_not_mem hf
    rw [LRUReplacer.Unpin_of_find_none s f hn] at h
    cases h
    have hk : f ∉ s.map_frame_to_it.keys := (FrameMap.find_eq_none_iff _ _).mp hn
    refine ⟨?_, ?_, ?_, ?_⟩
    · intro g
      have := hs.mem_iff g
      simp only [FrameMap.keys, StdList.toList] at this ⊢
      simp only [List.map_cons, List.mem_cons, List.map_append, List.mem_append, List.map_nil,
        List.mem_singleton, this]
      tauto
    · have := hs.nodup
      simp only [StdList.toList] at this hf ⊢
      rw [List.map_append, List.nodup_append]
      refine ⟨this, by simp, ?_⟩
      intro a ha hb
      simp at hb
      subst hb
      exact hf ha
    · have := hs.keys_nodup
      simp only [FrameMap.keys] at this hk ⊢
      rw [List.map_cons, List.nodup_cons]
      exact ⟨hk, this⟩
    · intro g it hg
      simp only [List.mem_cons, Prod.mk.injEq] at hg
      rcases hg with ⟨_, rfl⟩ | hg
      · rfl
      · exact hs.stored g it hg

theorem Inv.Pin {s t : LRUReplacer} (hs : Inv s) {f : frame_id_t} (h : s.Pin f = some t) :
    Inv t := by
  by_cases hf : f ∈ s.frames.toList
  · rw [hs.Pin_of_mem hf] at h
    cases h
  · rw [LRUReplacer.Pin_of_find_none s f (hs.find_of_not_mem hf)] at h
    cases h
    exact hs

theorem Inv.Victim {s : LRUReplacer} (hs : Inv s) (out : frame_id_t) :
    Inv (s.Victim out).2.2 := by
  unfold LRUReplacer.Victim
  rcases hn : s.frames.nodes with _ | ⟨⟨h, v⟩, rest⟩
  · exact hs
  · have hnd := hs.nodup
    simp only [StdList.toList, hn, List.map_cons, List.nodup_cons] at hnd
    refine ⟨?_, ?_, ?_, ?_⟩
    · intro g
      have := hs.mem_iff g
      simp only [StdList.toList, hn, List.map_cons, List.mem_cons] at this
      simp only [FrameMap.mem_keys_erase, StdList.toList, this]
      constructor
      · rintro ⟨h1 | h1, h2⟩
        · exact absurd h1 h2
        · exact h1
      · intro h1
        refine ⟨Or.inr h1, ?_⟩
        rintro rfl
        exact hnd.1 h1
    · simpa [StdList.toList] using hnd.2
    · exact FrameMap.keys_erase_nodup _ _ hs.keys_nodup
    · intro g it hg
      simp only [FrameMap.erase, List.mem_filter] at hg
      exact hs.stored g it hg.1

theorem Inv.step {s t : LRUReplacer} (hs : Inv s) {c : Call} (h : s.step c = some t) :
    Inv t := by
  cases c with
  | Unpin f => exact hs.Unpin h
  | Pin f => exact hs.Pin h
  | Victim =>
    simp only [LRUReplacer.step, Option.some.injEq] at h
    subst h
    exact hs.Victim 0

theorem Inv.run {s t : LRUReplacer} (hs : Inv s) {calls : List Call}
    (h : s.run calls = some t) : Inv t := by
  induction calls generalizing s with
  | nil =>
    simp only [LRUReplacer.run, Option.some.injEq] at h
    subst h
    exact hs
  | cons c cs ih =>
    simp only [LRUReplacer.run, Option.bind_eq_some] at h
    obtain ⟨s1, h1, h2⟩ := h
    exact ih (hs.step h1) h2

theorem Reachable.inv {s : LRUReplacer} (h : Reachable s) : Inv s := by
  obtain ⟨n, calls, hr⟩ := h
  exact (Inv_construct n).run hr

/-! ## Sequences of calls -/

/-- Unpinning pairwise distinct frames that are not candidates appends them in order. -/
theorem Inv.run_Unpin_new {s : LRUReplacer} (hs : Inv s) (fs : List frame_id_t)
    (hnd : fs.Nodup) (hdis : ∀ f ∈ fs, f ∉ s.frames.toList) :
    ∃ t, s.run (fs.map Call.Unpin) = some t ∧ t.frames.toList = s.frames.toList ++ fs := by
  induction fs generalizing s with
  | nil => exact ⟨s, rfl, by simp⟩
  | cons f fs ih =>
    have hf : f ∉ s.frames.toList := hdis f (List.mem_cons_self f fs)
    have hu := LRUReplacer.Unpin_of_find_none s f (hs.find_of_not_mem hf)
    have hs1 := hs.Unpin hu
    rw [List.nodup_cons] at hnd
    have hdis1 : ∀ g ∈ fs, g ∉ (LRUReplacer.mk
        ⟨s.frames.nodes ++ [(s.frames.next, f)], s.frames.next + 1⟩
        ⟨(f, ListIter.pastEnd) :: s.map_frame_to_it.entries⟩).frames.toList := by
      intro g hg hmem
      simp only [StdList.toList, List.map_append, List.mem_append, List.map_cons, List.map_nil,
        List.mem_singleton] at hmem
      rcases hmem with hmem | rfl
      · exact hdis g (List.mem_cons_of_mem f hg) (by simpa [StdList.toList] using hmem)
      · exact hnd.1 hg
    obtain ⟨t, ht, hl⟩ := ih hs1 hnd.2 hdis1
    refine ⟨t, ?_, ?_⟩
    · simp only [List.map_cons, LRUReplacer.run, LRUReplacer.step, hu, Option.some_bind]
      exact ht
    · rw [hl]
      simp [StdList.toList]

/-- Draining a replacer: as many `Victim` calls as there are candidates return the candidates
from head to tail and leave the list empty. -/
theorem LRUReplacer.Victims_drain (n : Nat) (s : LRUReplacer) (out : frame_id_t)
    (hn : s.frames.toList.length = n) :
    (s.Victims out n).1 = s.frames.toList.map (fun f => (true, f)) ∧
      (s.Victims out n).2.frames.nodes = [] := by
  induction n generalizing s out with
  | zero =>
    simp only [StdList.toList, List.length_map, List.length_eq_zero] at hn
    simp [LRUReplacer.Victims, StdList.toList, hn]
  | succ k ih =>
    rcases hnodes : s.frames.nodes with _ | ⟨⟨h, v⟩, rest⟩
    · simp [StdList.toList, hnodes] at hn
    · have hv : s.Victim out =
          (true, v, LRUReplacer.mk ⟨rest, s.frames.next⟩ (s.map_frame_to_it.erase v)) := by
        simp [LRUReplacer.Victim, hnodes]
      have hlen : (LRUReplacer.mk ⟨rest, s.frames.next⟩
          (s.map_frame_to_it.erase v)).frames.toList.length = k := by
        simp only [StdList.toList, hnodes, List.map_cons, List.length_cons, List.length_map]
          at hn ⊢
        omega
      obtain ⟨h1, h2⟩ := ih _ v hlen
      simp only [LRUReplacer.Victims, hv]
      refine ⟨?_, h2⟩
      rw [h1]
      simp [StdList.toList, hnodes]

/-- Two `Unpin` calls for the same frame in a row: both return, the second one changes
nothing, and afterwards the frame is in the sequence. -/
theorem Inv.Unpin_twice {s : LRUReplacer} (hs : Inv s) (f : frame_id_t) :
    ∃ t, s.Unpin f = some t ∧ t.Unpin f = some t ∧ Inv t ∧ f ∈ t.frames.toList := by
  by_cases hf : f ∈ s.frames.toList
  · exact ⟨s, hs.Unpin_of_mem hf, hs.Unpin_of_mem hf, hs, hf⟩
  · have hu := LRUReplacer.Unpin_of_find_none s f (hs.find_of_not_mem hf)
    have ht := hs.Unpin hu
    have hmem : f ∈ (LRUReplacer.mk ⟨s.frames.nodes ++ [(s.frames.next, f)], s.frames.next + 1⟩
        ⟨(f, ListIter.pastEnd) :: s.map_frame_to_it.entries⟩).frames.toList := by
      simp [StdList.toList]
    exact ⟨_, hu, ht.Unpin_of_mem hmem, ht, hmem⟩

/-! ## The claims -/

/-- C1 (head-eviction order): for pairwise distinct frames `fs`, unpinning them in order on
a fresh replacer is defined, the next `fs.length` calls of `Victim` all return `true` and
yield the frames of `fs` in the same order, and the call after those returns `false`. -/
theorem C1_head_eviction_order (num_pages : Nat) (fs : List frame_id_t) (out : frame_id_t)
    (hfs : fs.Nodup) :
    ∃ s, (LRUReplacer.construct num_pages).run (fs.map Call.Unpin) = some s ∧
      (s.Victims out fs.length).1 = fs.map (fun f => (true, f)) ∧
      ∀ out1, ((s.Victims out fs.length).2.Victim out1).1 = false := by
  obtain ⟨s, hrun, hl⟩ := (Inv_construct num_pages).run_Unpin_new fs hfs
    (by simp [LRUReplacer.construct, StdList.empty, StdList.toList])
  have hl1 : s.frames.toList = fs := by
    simpa [LRUReplacer.construct, StdList.empty, StdList.toList] using hl
  have hlen : s.frames.toList.length = fs.length := by rw [hl1]
  obtain ⟨h1, h2⟩ := LRUReplacer.Victims_drain fs.length s out hlen
  refine ⟨s, hrun, ?_, ?_⟩
  · rw [h1, hl1]
  · intro out1
    simp [LRUReplacer.Victim, h2]

/-- Witness of C1: `Unpin(1); Unpin(2); Unpin(3)` gives victims 1, 2, 3, then empty. -/
theorem C1_head_eviction_order_witness :
    ([1, 2, 3] : List frame_id_t).Nodup ∧
    ∃ s, (LRUReplacer.construct 10).run ([1, 2, 3].map Call.Unpin) = some s ∧
      (s.Victims 0 3).1 = [(true, 1), (true, 2), (true, 3)] ∧
      ∀ out1, ((s.Victims 0 3).2.Victim out1).1 = false :=
  ⟨by decide, C1_head_eviction_order 10 [1, 2, 3] 0 (by decide)⟩

/-- C2 (reposition on re-unpin), evaluation at the failing input: after `Unpin(1); Unpin(2)`
the index holds the past-the-end iterator for frame 2, so the second `Unpin(2)` splices
through past-the-end, which moves nothing: after `Unpin(1); Unpin(2); Unpin(2)` the sequence
is still 1, 2 and the next `Victim` returns 1, not the re-unpinned frame 2. -/
theorem C2_reunpin_not_relocated :
    (LRUReplacer.construct 10).run [Call.Unpin 1, Call.Unpin 2, Call.Unpin 2] =
      some (LRUReplacer.mk ⟨[(0, 1), (1, 2)], 2⟩
        ⟨[(2, ListIter.pastEnd), (1, ListIter.pastEnd)]⟩) ∧
    (LRUReplacer.mk ⟨[(0, 1), (1, 2)], 2⟩
        ⟨[(2, ListIter.pastEnd), (1, ListIter.pastEnd)]⟩).frames.toList = [1, 2] ∧
    ((LRUReplacer.mk ⟨[(0, 1), (1, 2)], 2⟩
        ⟨[(2, ListIter.pastEnd), (1, ListIter.pastEnd)]⟩).Victim 0).1 = true ∧
    ((LRUReplacer.mk ⟨[(0, 1), (1, 2)], 2⟩
        ⟨[(2, ListIter.pastEnd), (1, ListIter.pastEnd)]⟩).Victim 0).2.1 = 1 := by
  decide

/-- C3 (pin removes candidacy), evaluation at the failing input: `Unpin(1)` registers the
past-the-end iterator for frame 1, so `Pin(1)` erases through past-the-end and the call
sequence `Unpin(1); Pin(1)` has no defined result. -/
theorem C3_unpin_pin_undefined :
    (LRUReplacer.construct 10).Unpin 1 =
      some { frames := { nodes := [(0, 1)], next := 1 },
             map_frame_to_it := { entries := [(1, ListIter.pastEnd)] } } ∧
    (LRUReplacer.construct 10).run [Call.Unpin 1, Call.Pin 1] = none := by
  decide

/-- C4 (victim on a non-empty candidate set): when the ordered sequence is `v :: rest`,
`Victim` returns `true`, writes `v` to the output frame id, leaves the sequence equal to
`rest`, and the index afterwards has no entry for `v` and the entries it had for every other
frame. -/
theorem C4_Victim_nonempty (s : LRUReplacer) (out v : frame_id_t) (rest : List frame_id_t)
    (h : s.frames.toList = v :: rest) :
    (s.Victim out).1 = true ∧ (s.Victim out).2.1 = v ∧
      (s.Victim out).2.2.frames.toList = rest ∧
      ∀ g, (s.Victim out).2.2.map_frame_to_it.find g =
        if g = v then none else s.map_frame_to_it.find g := by
  rcases hn : s.frames.nodes with _ | ⟨⟨x, w⟩, ns⟩
  · simp [StdList.toList, hn] at h
  · simp only [StdList.toList, hn, List.map_cons, List.cons.injEq] at h
    obtain ⟨rfl, hrest⟩ := h
    simp only [LRUReplacer.Victim, hn, StdList.toList, hrest, true_and]
    intro g
    exact FrameMap.find_erase _ _ _

/-- Witness of C4 on the state reached by `Unpin(5); Unpin(6)`. -/
theorem C4_Victim_nonempty_witness :
    (({ frames := { nodes := [(0, 5), (1, 6)], next := 2 },
        map_frame_to_it := { entries := [(6, ListIter.pastEnd), (5, ListIter.pastEnd)] } } :
        LRUReplacer)).frames.toList = 5 :: [6] ∧
    (({ frames := { nodes := [(0, 5), (1, 6)], next := 2 },
        map_frame_to_it := { entries := [(6, ListIter.pastEnd), (5, ListIter.pastEnd)] } } :
        LRUReplacer).Victim 0).2.1 = 5 :=
  ⟨by decide, (C4_Victim_nonempty _ 0 5 [6] (by decide)).2.1⟩

/-- C5 (empty-victim signal): `Victim` returns `false` exactly when the ordered sequence is
empty, and then the state and the output frame id are unchanged; on a freshly constructed
replacer `Victim` returns `false` and `Size()` is 0. -/
theorem C5_Victim_empty_signal (s : LRUReplacer) (out : frame_id_t) :
    ((s.Victim out).1 = false ↔ s.frames.toList = []) ∧
    ((s.Victim out).1 = false → s.Victim out = (false, out, s)) ∧
    (∀ num_pages, (LRUReplacer.construct num_pages).Victim out =
        (false, out, LRUReplacer.construct num_pages) ∧
      (LRUReplacer.construct num_pages).Size = 0) := by
  refine ⟨?_, ?_, ?_⟩
  · rcases hn : s.frames.nodes with _ | ⟨⟨x, w⟩, ns⟩ <;>
      simp [LRUReplacer.Victim, StdList.toList, hn]
  · rcases hn : s.frames.nodes with _ | ⟨⟨x, w⟩, ns⟩ <;>
      simp [LRUReplacer.Victim, hn]
  · intro n
    simp [LRUReplacer.Victim, LRUReplacer.construct, StdList.empty, LRUReplacer.Size,
      StdList.size]

/-- C6 (pin is a no-op on an absent frame): when `f` is not a candidate (the index has no
entry for it or, in a reachable state, it does not occur in the ordered sequence), `Pin(f)`
is defined and returns the state unchanged: same sequence, same index, same `Size()`. -/
theorem C6_Pin_absent_noop (s : LRUReplacer) (f : frame_id_t)
    (h : s.map_frame_to_it.find f = none ∨ (Reachable s ∧ f ∉ s.frames.toList)) :
    s.Pin f = some s ∧ (s.Pin f).map LRUReplacer.Size = some s.Size := by
  have hfind : s.map_frame_to_it.find f = none := by
    rcases h with h | ⟨hr, hf⟩
    · exact h
    · exact hr.inv.find_of_not_mem hf
  simp [LRUReplacer.Pin_of_find_none s f hfind]

/-- Witness of C6: `Pin(99)` on the state reached by `Unpin(1); Unpin(2)`. -/
theorem C6_Pin_absent_noop_witness :
    (LRUReplacer.mk ⟨[(0, 1), (1, 2)], 2⟩
        ⟨[(2, ListIter.pastEnd), (1, ListIter.pastEnd)]⟩).map_frame_to_it.find 99 = none ∧
    (LRUReplacer.mk ⟨[(0, 1), (1, 2)], 2⟩ ⟨[(2, ListIter.pastEnd), (1, ListIter.pastEnd)]⟩).Pin 99
      = some (LRUReplacer.mk ⟨[(0, 1), (1, 2)], 2⟩
          ⟨[(2, ListIter.pastEnd), (1, ListIter.pastEnd)]⟩) :=
  ⟨by decide, (C6_Pin_absent_noop _ 99 (Or.inl (by decide))).1⟩

/-- C7 (unpin of a new frame appends at the tail): when `f` is not a candidate, `Unpin(f)`
is defined; afterwards the existing nodes are where they were with one new node holding `f`
after them, so the ordered sequence is the old one followed by `f`, `Size()` has grown by
one, `f` is a key of the index and the entries of the other frames are as before. -/
theorem C7_Unpin_new_appends (s : LRUReplacer) (f : frame_id_t)
    (h : s.map_frame_to_it.find f = none ∨ (Reachable s ∧ f ∉ s.frames.toList)) :
    ∃ t, s.Unpin f = some t ∧
      t.frames.nodes = s.frames.nodes ++ [(s.frames.next, f)] ∧
      t.frames.toList = s.frames.toList ++ [f] ∧
      t.Size = s.Size + 1 ∧
      f ∈ t.map_frame_to_it.keys ∧
      ∀ g, g ≠ f → t.map_frame_to_it.find g = s.map_frame_to_it.find g := by
  have hfind : s.map_frame_to_it.find f = none := by
    rcases h with h | ⟨hr, hf⟩
    · exact h
    · exact hr.inv.find_of_not_mem hf
  refine ⟨_, LRUReplacer.Unpin_of_find_none s f hfind, rfl, ?_, ?_, ?_, ?_⟩
  · simp [StdList.toList]
  · simp [LRUReplacer.Size, StdList.size]
  · simp [FrameMap.keys]
  · intro g hg
    have hfg : ¬ f = g := fun e => hg e.symm
    simp [FrameMap.find, List.find?_cons, hfg]

/-- Witness of C7: `Unpin(3)` on the state reached by `Unpin(1); Unpin(2)`. -/
theorem C7_Unpin_new_appends_witness :
    (LRUReplacer.mk ⟨[(0, 1), (1, 2)], 2⟩
        ⟨[(2, ListIter.pastEnd), (1, ListIter.pastEnd)]⟩).map_frame_to_it.find 3 = none ∧
    ∃ t, (LRUReplacer.mk ⟨[(0, 1), (1, 2)], 2⟩
        ⟨[(2, ListIter.pastEnd), (1, ListIter.pastEnd)]⟩).Unpin 3 = some t ∧
      t.frames.toList = [1, 2, 3] ∧ t.Size = 3 :=
  ⟨by decide,
    (C7_Unpin_new_appends (LRUReplacer.mk ⟨[(0, 1), (1, 2)], 2⟩
      ⟨[(2, ListIter.pastEnd), (1, ListIter.pastEnd)]⟩) 3 (Or.inl (by decide))).imp
      fun _ ht => ⟨ht.1, ht.2.2.1, ht.2.2.2.1⟩⟩

/-- C8 (index/sequence membership consistency): in every state reached from a freshly
constructed replacer by a sequence of `Unpin`, `Pin` and `Victim` calls, a frame id is a key
of the position index if and only if it occurs in the ordered sequence. -/
theorem C8_index_iff_sequence (num_pages : Nat) (calls : List Call) (s : LRUReplacer)
    (h : (LRUReplacer.construct num_pages).run calls = some s) (f : frame_id_t) :
    f ∈ s.map_frame_to_it.keys ↔ f ∈ s.frames.toList :=
  ((Inv_construct num_pages).run h).mem_iff f

/-- Witness of C8 on the calls `Unpin(1); Unpin(2); Victim; Pin(7); Unpin(3)`. -/
theorem C8_index_iff_sequence_witness :
    (LRUReplacer.construct 10).run
        [Call.Unpin 1, Call.Unpin 2, Call.Victim, Call.Pin 7, Call.Unpin 3] =
      some (LRUReplacer.mk ⟨[(1, 2), (2, 3)], 3⟩
        ⟨[(3, ListIter.pastEnd), (2, ListIter.pastEnd)]⟩) ∧
    ((2 : frame_id_t) ∈ (LRUReplacer.mk ⟨[(1, 2), (2, 3)], 3⟩
        ⟨[(3, ListIter.pastEnd), (2, ListIter.pastEnd)]⟩).map_frame_to_it.keys ↔
      (2 : frame_id_t) ∈ (LRUReplacer.mk ⟨[(1, 2), (2, 3)], 3⟩
        ⟨[(3, ListIter.pastEnd), (2, ListIter.pastEnd)]⟩).frames.toList) :=
  ⟨by decide, C8_index_iff_sequence 10
    [Call.Unpin 1, Call.Unpin 2, Call.Victim, Call.Pin 7, Call.Unpin 3] _ (by decide) 2⟩

/-- C9 (the index entry locates its frame), evaluation at the failing input: after
`Unpin(1)` on a fresh replacer the frame 1 is held by node 0, which is both the first and the
last node, while the position registered for frame 1 is the past-the-end iterator, which
designates no node. -/
theorem C9_registered_position_is_pastEnd :
    ∃ t, (LRUReplacer.construct 10).Unpin 1 = some t ∧
      t.frames.nodes = [(0, 1)] ∧
      t.frames.deref (ListIter.node 0) = some 1 ∧
      t.map_frame_to_it.find 1 = some ListIter.pastEnd ∧
      t.map_frame_to_it.find 1 = some t.frames.end_ ∧
      (t.map_frame_to_it.find 1).bind t.frames.deref = none :=
  ⟨_, rfl, by decide, by decide, by decide, by decide, by decide⟩

/-- C10 (no duplicates): in every state reached from a freshly constructed replacer by a
sequence of `Unpin`, `Pin` and `Victim` calls, no frame id occurs twice in the ordered
sequence; and for every frame `f`, two `Unpin(f)` calls in a row both return and leave exactly
one entry for `f` in the sequence. -/
theorem C10_no_duplicates (num_pages : Nat) (calls : List Call) (s : LRUReplacer)
    (h : (LRUReplacer.construct num_pages).run calls = some s) :
    s.frames.toList.Nodup ∧
    ∀ f, ∃ t, (s.Unpin f).bind (fun u => u.Unpin f) = some t ∧
      t.frames.toList.count f = 1 := by
  have hs := (Inv_construct num_pages).run h
  refine ⟨hs.nodup, fun f => ?_⟩
  obtain ⟨t, h1, h2, ht, hmem⟩ := hs.Unpin_twice f
  refine ⟨t, by simp [h1, h2], ?_⟩
  exact List.count_eq_one_of_mem ht.nodup hmem

/-- Witness of C10: `Unpin(1); Unpin(1)` on the state reached by `Unpin(1); Unpin(2)`. -/
theorem C10_no_duplicates_witness :
    (LRUReplacer.construct 10).run [Call.Unpin 1, Call.Unpin 2] =
      some (LRUReplacer.mk ⟨[(0, 1), (1, 2)], 2⟩
        ⟨[(2, ListIter.pastEnd), (1, ListIter.pastEnd)]⟩) ∧
    ∃ t, ((LRUReplacer.mk ⟨[(0, 1), (1, 2)], 2⟩
        ⟨[(2, ListIter.pastEnd), (1, ListIter.pastEnd)]⟩).Unpin 1).bind
          (fun u => u.Unpin 1) = some t ∧ t.frames.toList.count 1 = 1 :=
  ⟨by decide, (C10_no_duplicates 10 [Call.Unpin 1, Call.Unpin 2]
    (LRUReplacer.mk ⟨[(0, 1), (1, 2)], 2⟩ ⟨[(2, ListIter.pastEnd), (1, ListIter.pastEnd)]⟩)
    (by decide)).2 1⟩

/-! ## Extent of the stored-position defect

The statements below hold in every reachable state; they are what the single-input
evaluations generalise to. -/

/-- In every reachable state the ordered sequence has no repeated frame id. -/
theorem Reachable.nodup {s : LRUReplacer} (h : Reachable s) : s.frames.toList.Nodup :=
  h.inv.nodup

/-- In every reachable state every position stored in the index is past-the-end. -/
theorem Reachable.stored_pastEnd {s : LRUReplacer} (h : Reachable s) {f : frame_id_t}
    (hf : f ∈ s.frames.toList) : s.map_frame_to_it.find f = some s.frames.end_ :=
  h.inv.find_of_mem hf

/-- In every reachable state `Unpin` of a frame that is a candidate leaves the state as it
is: the frame is not moved to the head. -/
theorem Reachable.Unpin_candidate {s : LRUReplacer} (h : Reachable s) {f : frame_id_t}
    (hf : f ∈ s.frames.toList) : s.Unpin f = some s :=
  h.inv.Unpin_of_mem hf

/-- In every reachable state `Pin` of a frame that is a candidate does not return. -/
theorem Reachable.Pin_candidate {s : LRUReplacer} (h : Reachable s) {f : frame_id_t}
    (hf : f ∈ s.frames.toList) : s.Pin f = none :=
  h.inv.Pin_of_mem hf

/-! ## Size, capacity hint and the per-frame life cycle -/

/-- The state that `Victim` leaves does not depend on the previous value of the output. -/
theorem LRUReplacer.Victim_state (s : LRUReplacer) (out out1 : frame_id_t) :
    (s.Victim out).2.2 = (s.Victim out1).2.2 := by
  rcases hn : s.frames.nodes with _ | ⟨⟨x, w⟩, ns⟩ <;> simp [LRUReplacer.Victim, hn]

/-- A successful `Victim` returns the head of the sequence, and the frame is not in the
sequence afterwards when the sequence had no repetition. -/
theorem LRUReplacer.Victim_true (s : LRUReplacer) (out f : frame_id_t)
    (hnd : s.frames.toList.Nodup)
    (h1 : (s.Victim out).1 = true) (h2 : (s.Victim out).2.1 = f) :
    f ∈ s.frames.toList ∧ f ∉ (s.Victim out).2.2.frames.toList := by
  rcases hn : s.frames.nodes with _ | ⟨⟨x, w⟩, ns⟩
  · simp [LRUReplacer.Victim, hn] at h1
  · simp only [LRUReplacer.Victim, hn] at h2 ⊢
    subst h2
    simp only [StdList.toList, hn, List.map_cons, List.nodup_cons] at hnd ⊢
    exact ⟨List.mem_cons_self _ _, hnd.1⟩

/-- A frame that is in the sequence after a defined call and was not before has been
unpinned by that call. -/
theorem Inv.step_enter {s t : LRUReplacer} (hs : Inv s) {c : Call} (h : s.step c = some t)
    {g : frame_id_t} (h0 : g ∉ s.frames.toList) (h1 : g ∈ t.frames.toList) :
    c = Call.Unpin g := by
  cases c with
  | Unpin f =>
    simp only [LRUReplacer.step] at h
    by_cases hf : f ∈ s.frames.toList
    · rw [hs.Unpin_of_mem hf] at h
      cases h
      exact absurd h1 h0
    · rw [LRUReplacer.Unpin_of_find_none s f (hs.find_of_not_mem hf)] at h
      cases h
      simp only [StdList.toList, List.map_append, List.mem_append, List.map_cons, List.map_nil,
        List.mem_singleton] at h0 h1
      rcases h1 with h1 | h1
      · exact absurd h1 h0
      · rw [h1]
  | Pin f =>
    simp only [LRUReplacer.step] at h
    by_cases hf : f ∈ s.frames.toList
    · rw [hs.Pin_of_mem hf] at h
      cases h
    · rw [LRUReplacer.Pin_of_find_none s f (hs.find_of_not_mem hf)] at h
      cases h
      exact absurd h1 h0
  | Victim =>
    simp only [LRUReplacer.step, Option.some.injEq] at h
    subst h
    exfalso
    apply h0
    rcases hn : s.frames.nodes with _ | ⟨⟨x, w⟩, ns⟩
    · simpa [LRUReplacer.Victim, hn] using h1
    · simp only [LRUReplacer.Victim, hn, StdList.toList] at h1
      simp only [StdList.toList, hn, List.map_cons]
      exact List.mem_cons_of_mem _ h1

/-- A frame that was in the sequence before a defined call and is not after it has been
removed by a `Pin` of that frame or by a `Victim`. -/
theorem Inv.step_leave {s t : LRUReplacer} (hs : Inv s) {c : Call} (h : s.step c = some t)
    {g : frame_id_t} (h0 : g ∈ s.frames.toList) (h1 : g ∉ t.frames.toList) :
    c = Call.Pin g ∨ c = Call.Victim := by
  cases c with
  | Unpin f =>
    exfalso
    simp only [LRUReplacer.step] at h
    by_cases hf : f ∈ s.frames.toList
    · rw [hs.Unpin_of_mem hf] at h
      cases h
      exact h1 h0
    · rw [LRUReplacer.Unpin_of_find_none s f (hs.find_of_not_mem hf)] at h
      cases h
      apply h1
      simp only [StdList.toList, List.map_append, List.mem_append] at h0 ⊢
      exact Or.inl h0
  | Pin f =>
    exfalso
    simp only [LRUReplacer.step] at h
    by_cases hf : f ∈ s.frames.toList
    · rw [hs.Pin_of_mem hf] at h
      cases h
    · rw [LRUReplacer.Pin_of_find_none s f (hs.find_of_not_mem hf)] at h
      cases h
      exact h1 h0
  | Victim => exact Or.inr rfl

/-- A frame that is in the sequence after a defined run and was not before has been
unpinned during the run. -/
theorem Inv.run_enter {s t : LRUReplacer} (hs : Inv s) {calls : List Call}
    (h : s.run calls = some t) {g : frame_id_t}
    (h0 : g ∉ s.frames.toList) (h1 : g ∈ t.frames.toList) : Call.Unpin g ∈ calls := by
  induction calls generalizing s with
  | nil =>
    simp only [LRUReplacer.run, Option.some.injEq] at h
    subst h
    exact absurd h1 h0
  | cons c cs ih =>
    simp only [LRUReplacer.run, Option.bind_eq_some] at h
    obtain ⟨s1, hc, hcs⟩ := h
    by_cases hg : g ∈ s1.frames.toList
    · rw [hs.step_enter hc h0 hg]
      exact List.mem_cons_self _ _
    · exact List.mem_cons_of_mem _ (ih (hs.step hc) hcs hg)

/-- C11 (size invariant): in every state reached from a freshly constructed replacer by a
sequence of `Unpin`, `Pin` and `Victim` calls, `Size()` is the length of the ordered
sequence, which is the number of distinct frame ids in the sequence and the number of keys
of the index (themselves pairwise distinct). -/
theorem C11_Size_invariant (num_pages : Nat) (calls : List Call) (s : LRUReplacer)
    (h : (LRUReplacer.construct num_pages).run calls = some s) :
    s.Size = s.frames.toList.length ∧
      s.Size = s.frames.toList.toFinset.card ∧
      s.Size = s.map_frame_to_it.keys.length ∧
      s.map_frame_to_it.keys.Nodup := by
  have hs := (Inv_construct num_pages).run h
  have hsize : s.Size = s.frames.toList.length := by
    simp [LRUReplacer.Size, StdList.size, StdList.toList]
  have hperm : s.map_frame_to_it.keys.Perm s.frames.toList :=
    (List.perm_ext_iff_of_nodup hs.keys_nodup hs.nodup).mpr hs.mem_iff
  refine ⟨hsize, ?_, ?_, hs.keys_nodup⟩
  · rw [hsize, List.toFinset_card_of_nodup hs.nodup]
  · rw [hsize, hperm.length_eq]

/-- Witness of C11 on the calls `Unpin(1); Unpin(2); Victim; Pin(7); Unpin(3)`. -/
theorem C11_Size_invariant_witness :
    (LRUReplacer.construct 10).run
        [Call.Unpin 1, Call.Unpin 2, Call.Victim, Call.Pin 7, Call.Unpin 3] =
      some (LRUReplacer.mk ⟨[(1, 2), (2, 3)], 3⟩
        ⟨[(3, ListIter.pastEnd), (2, ListIter.pastEnd)]⟩) ∧
    (LRUReplacer.mk ⟨[(1, 2), (2, 3)], 3⟩
        ⟨[(3, ListIter.pastEnd), (2, ListIter.pastEnd)]⟩).Size = 2 :=
  ⟨by decide, (C11_Size_invariant 10
    [Call.Unpin 1, Call.Unpin 2, Call.Victim, Call.Pin 7, Call.Unpin 3] _ (by decide)).1⟩

/-- C12 (the capacity hint is not enforced): the constructed replacer is the same for every
capacity hint, so every operation behaves the same for every hint; and for every hint and
every list of pairwise distinct frame ids, however long, unpinning them all on the fresh
replacer is defined and yields `Size()` equal to the number of frames. -/
theorem C12_capacity_hint_ignored (num_pages : Nat) (fs : List frame_id_t) (hfs : fs.Nodup) :
    (∀ n, LRUReplacer.construct n = LRUReplacer.construct num_pages) ∧
    ∃ s, (LRUReplacer.construct num_pages).run (fs.map Call.Unpin) = some s ∧
      s.Size = fs.length := by
  refine ⟨fun _ => rfl, ?_⟩
  obtain ⟨s, hrun, hl⟩ := (Inv_construct num_pages).run_Unpin_new fs hfs
    (by simp [LRUReplacer.construct, StdList.empty, StdList.toList])
  refine ⟨s, hrun, ?_⟩
  have hl1 : s.frames.toList = fs := by
    simpa [LRUReplacer.construct, StdList.empty, StdList.toList] using hl
  rw [← hl1]
  simp [LRUReplacer.Size, StdList.size, StdList.toList]

/-- Witness of C12: three frames unpinned on a replacer constructed with capacity hint 2. -/
theorem C12_capacity_hint_ignored_witness :
    ([4, 5, 6] : List frame_id_t).Nodup ∧
    ∃ s, (LRUReplacer.construct 2).run ([4, 5, 6].map Call.Unpin) = some s ∧ s.Size = 3 :=
  ⟨by decide, (C12_capacity_hint_ignored 2 [4, 5, 6] (by decide)).2⟩

/-- C17 (per-frame life cycle, no repeated victim): let `s` be reached from a freshly
constructed replacer by the calls `pre`.  A defined call from `s` brings a frame into the
sequence only if it is `Unpin` of that frame, and takes a frame out only if it is `Pin` of
that frame or `Victim`.  If `Victim` in `s` succeeds and returns `f`, then `Unpin(f)` occurs
in `pre`, `f` was in the sequence of `s`, and whenever a later `Victim`, after further defined
calls `mid`, returns `f` again, `Unpin(f)` occurs in `mid`. -/
theorem C17_frame_life_cycle (num_pages : Nat) (pre : List Call) (s : LRUReplacer)
    (h : (LRUReplacer.construct num_pages).run pre = some s) :
    (∀ c t g, s.step c = some t →
      (g ∉ s.frames.toList → g ∈ t.frames.toList → c = Call.Unpin g) ∧
      (g ∈ s.frames.toList → g ∉ t.frames.toList → c = Call.Pin g ∨ c = Call.Victim)) ∧
    (∀ out f, (s.Victim out).1 = true → (s.Victim out).2.1 = f →
      Call.Unpin f ∈ pre ∧ f ∈ s.frames.toList ∧
      ∀ mid s2 out2, (s.Victim out).2.2.run mid = some s2 →
        (s2.Victim out2).1 = true → (s2.Victim out2).2.1 = f → Call.Unpin f ∈ mid) := by
  have hs := (Inv_construct num_pages).run h
  refine ⟨fun c t g hc => ⟨hs.step_enter hc, hs.step_leave hc⟩, ?_⟩
  intro out f h1 h2
  obtain ⟨hin, hout⟩ := LRUReplacer.Victim_true s out f hs.nodup h1 h2
  have hpre : Call.Unpin f ∈ pre :=
    (Inv_construct num_pages).run_enter h
      (by simp [LRUReplacer.construct, StdList.empty, StdList.toList]) hin
  refine ⟨hpre, hin, ?_⟩
  intro mid s2 out2 hmid h3 h4
  have hs2 := (hs.Victim out).run hmid
  exact (hs.Victim out).run_enter hmid hout
    (LRUReplacer.Victim_true s2 out2 f hs2.nodup h3 h4).1

/-- Witness of C17: after `Unpin(1); Unpin(2)` the call `Victim` returns 1, and `Unpin(1)`
occurs among the calls made before it. -/
theorem C17_frame_life_cycle_witness :
    (LRUReplacer.construct 10).run [Call.Unpin 1, Call.Unpin 2] =
      some (LRUReplacer.mk ⟨[(0, 1), (1, 2)], 2⟩
        ⟨[(2, ListIter.pastEnd), (1, ListIter.pastEnd)]⟩) ∧
    ((LRUReplacer.mk ⟨[(0, 1), (1, 2)], 2⟩
        ⟨[(2, ListIter.pastEnd), (1, ListIter.pastEnd)]⟩).Victim 0).2.1 = 1 ∧
    Call.Unpin 1 ∈ [Call.Unpin 1, Call.Unpin 2] :=
  ⟨by decide, by decide,
    ((C17_frame_life_cycle 10 [Call.Unpin 1, Call.Unpin 2]
      (LRUReplacer.mk ⟨[(0, 1), (1, 2)], 2⟩ ⟨[(2, ListIter.pastEnd), (1, ListIter.pastEnd)]⟩)
      (by decide)).2 0 1 (by decide) (by decide)).1⟩

/-- C18 (unpin idempotent on membership): in every state reached from a freshly constructed
replacer by a sequence of `Unpin`, `Pin` and `Victim` calls, and for every frame `f`, one
`Unpin(f)` and a second `Unpin(f)` after it both return; the states after one and after two
calls have the same frames in the sequence, the same index keys and the same `Size()`, and
`f` is a candidate in both. -/
theorem C18_Unpin_idempotent_membership (num_pages : Nat) (calls : List Call)
    (s : LRUReplacer) (h : (LRUReplacer.construct num_pages).run calls = some s)
    (f : frame_id_t) :
    ∃ t1 t2, s.Unpin f = some t1 ∧ t1.Unpin f = some t2 ∧
      (∀ g, g ∈ t2.frames.toList ↔ g ∈ t1.frames.toList) ∧
      (∀ g, g ∈ t2.map_frame_to_it.keys ↔ g ∈ t1.map_frame_to_it.keys) ∧
      t2.Size = t1.Size ∧ f ∈ t1.frames.toList ∧ f ∈ t2.frames.toList := by
  obtain ⟨t, h1, h2, _, hmem⟩ := ((Inv_construct num_pages).run h).Unpin_twice f
  exact ⟨t, t, h1, h2, fun _ => Iff.rfl, fun _ => Iff.rfl, rfl, hmem, hmem⟩

/-- Witness of C18: `Unpin(7)` once and twice on the state reached by `Unpin(5)`. -/
theorem C18_Unpin_idempotent_membership_witness :
    (LRUReplacer.construct 10).run [Call.Unpin 5] =
      some (LRUReplacer.mk ⟨[(0, 5)], 1⟩ ⟨[(5, ListIter.pastEnd)]⟩) ∧
    ∃ t1 t2, (LRUReplacer.mk ⟨[(0, 5)], 1⟩ ⟨[(5, ListIter.pastEnd)]⟩).Unpin 7 = some t1 ∧
      t1.Unpin 7 = some t2 ∧ t2.Size = t1.Size ∧ (7 : frame_id_t) ∈ t2.frames.toList := by
  obtain ⟨t1, t2, h1, h2, _, _, h5, _, h7⟩ := C18_Unpin_idempotent_membership 10
    [Call.Unpin 5] (LRUReplacer.mk ⟨[(0, 5)], 1⟩ ⟨[(5, ListIter.pastEnd)]⟩) (by decide) 7
  exact ⟨by decide, t1, t2, h1, h2, h5, h7⟩

/-- C19 (pin affects only the pinned frame), evaluation at the failing input: from the state
reached by `Unpin(1); Unpin(2); Unpin(3)`, whose sequence is 1, 2, 3, the call `Pin(2)`
erases through the past-the-end iterator and has no defined result. -/
theorem C19_Pin_candidate_undefined :
    ((LRUReplacer.construct 10).run [Call.Unpin 1, Call.Unpin 2, Call.Unpin 3]).map
        (fun s => s.frames.toList) = some [1, 2, 3] ∧
    (LRUReplacer.construct 10).run
        [Call.Unpin 1, Call.Unpin 2, Call.Unpin 3, Call.Pin 2] = none := by
  decide

/-! ## Row matrices -/

/-- Loop rule: an invariant that holds initially and is carried by every defined iteration
holds for the state the loop returns, and the loop does return one. -/
theorem forLoop_inv {σ : Type} (P : Nat → σ → Prop) (n : Nat) (body : Nat → σ → Option σ)
    (s : σ) (h0 : P 0 s)
    (hstep : ∀ k, k < n → ∀ t, P k t → ∃ t1, body k t = some t1 ∧ P (k + 1) t1) :
    ∃ t, forLoop n body s = some t ∧ P n t := by
  induction n with
  | zero => exact ⟨s, rfl, h0⟩
  | succ m ih =>
    obtain ⟨t, ht, hP⟩ := ih fun k hk => hstep k (Nat.lt_succ_of_lt hk)
    obtain ⟨t1, ht1, hP1⟩ := hstep m (Nat.lt_succ_self m) t hP
    exact ⟨t1, by simp [forLoop, ht, ht1], hP1⟩

theorem RowMatrix.index_lt {r c i j : Nat} (hi : i < r) (hj : j < c) : i * c + j < r * c := by
  have h1 : (i + 1) * c ≤ r * c := Nat.mul_le_mul_right c hi
  rw [Nat.succ_mul] at h1
  omega

theorem RowMatrix.index_inj {c i j i1 j1 : Nat} (hj : j < c) (hj1 : j1 < c)
    (h : i * c + j = i1 * c + j1) : i = i1 ∧ j = j1 := by
  have hc : 0 < c := Nat.lt_of_le_of_lt (Nat.zero_le j) hj
  have hm : (i * c + j) % c = (i1 * c + j1) % c := by rw [h]
  rw [Nat.add_comm (i * c), Nat.add_comm (i1 * c), Nat.add_mul_mod_self_right,
    Nat.add_mul_mod_self_right, Nat.mod_eq_of_lt hj, Nat.mod_eq_of_lt hj1] at hm
  subst hm
  have h2 : i * c = i1 * c := Nat.add_right_cancel h
  exact ⟨Nat.eq_of_mul_eq_mul_right hc h2, rfl⟩

/-- In a matrix whose array has `rows * cols` elements every in-range element can be read. -/
theorem RowMatrix.GetElem_eq_entry {T : Type} [Zero T] (m : RowMatrix T)
    (hm : m.linear.length = m.rows * m.cols) {i j : Nat} (hi : i < m.rows) (hj : j < m.cols) :
    m.GetElem i j = some (m.entry i j) := by
  have hlt : i * m.cols + j < m.linear.length := by
    rw [hm]
    exact RowMatrix.index_lt hi hj
  simp [RowMatrix.entry, RowMatrix.GetElem, RowMatrix.data_, hi, List.getElem?_eq_getElem hlt]

/-- Writing an in-range element: the call is defined, the dimensions and the array size are
kept, the element written reads back, and every other in-range element is unchanged. -/
theorem RowMatrix.SetElem_spec {T : Type} (m : RowMatrix T) {r c i j : Nat} (v : T)
    (hr : m.rows = r) (hc : m.cols = c) (hl : m.linear.length = r * c)
    (hi : i < r) (hj : j < c) :
    ∃ m1, m.SetElem i j v = some m1 ∧ m1.rows = r ∧ m1.cols = c ∧
      m1.linear.length = r * c ∧ m1.GetElem i j = some v ∧
      ∀ i1 j1, j1 < c → (i1 ≠ i ∨ j1 ≠ j) → m1.GetElem i1 j1 = m.GetElem i1 j1 := by
  have hlt : i * c + j < m.linear.length := by
    rw [hl]
    exact RowMatrix.index_lt hi hj
  refine ⟨{ m with linear := m.linear.set (i * c + j) v,
                   linear_int := by simpa using m.linear_int }, ?_, hr, hc, ?_, ?_, ?_⟩
  · simp [RowMatrix.SetElem, RowMatrix.data_, hr, hc, hi, hlt]
  · simpa using hl
  · simp [RowMatrix.GetElem, RowMatrix.data_, hr, hc, hi, List.getElem?_set, hlt]
  · intro i1 j1 hj1 hne
    have hidx : i * c + j ≠ i1 * c + j1 := by
      intro e
      obtain ⟨e1, e2⟩ := RowMatrix.index_inj hj hj1 e
      rcases hne with hne | hne
      · exact hne e1.symm
      · exact hne e2.symm
    by_cases hi1 : i1 < r
    · simp [RowMatrix.GetElem, RowMatrix.data_, hr, hc, hi1, List.getElem?_set, hidx]
    · simp [RowMatrix.GetElem, RowMatrix.data_, hr, hi1]

/-- The two nested loops that write `g i j` to every element `(i, j)` of an `r` by `c`
matrix: they are defined, keep the dimensions, and leave `g i j` at `(i, j)`. -/
theorem RowMatrix.fill {T : Type} (r c : Nat) (g : Nat → Nat → T)
    (body : Nat → Nat → RowMatrix T → Option (RowMatrix T))
    (hbody : ∀ i j (ret : RowMatrix T), i < r → j < c → ret.rows = r → ret.cols = c →
      ret.linear.length = r * c → body i j ret = ret.SetElem i j (g i j))
    (ret0 : RowMatrix T) (hr : ret0.rows = r) (hc : ret0.cols = c)
    (hl : ret0.linear.length = r * c) :
    ∃ ret, forLoop r (fun i ret => forLoop c (fun j ret => body i j ret) ret) ret0 = some ret ∧
      ret.rows = r ∧ ret.cols = c ∧ ret.linear.length = r * c ∧
      ∀ i j, i < r → j < c → ret.GetElem i j = some (g i j) := by
  have key := forLoop_inv
    (fun i (ret : RowMatrix T) => ret.rows = r ∧ ret.cols = c ∧ ret.linear.length = r * c ∧
      ∀ i1 j1, i1 < i → j1 < c → ret.GetElem i1 j1 = some (g i1 j1))
    r (fun i ret => forLoop c (fun j ret => body i j ret) ret) ret0
    ⟨hr, hc, hl, fun i1 j1 h => absurd h (Nat.not_lt_zero i1)⟩ ?_
  · obtain ⟨ret, hret, h1, h2, h3, h4⟩ := key
    exact ⟨ret, hret, h1, h2, h3, h4⟩
  · intro i hi t ⟨ht1, ht2, ht3, ht4⟩
    have inner := forLoop_inv
      (fun j (ret : RowMatrix T) => ret.rows = r ∧ ret.cols = c ∧ ret.linear.length = r * c ∧
        ∀ i1 j1, j1 < c → (i1 < i ∨ (i1 = i ∧ j1 < j)) → ret.GetElem i1 j1 = some (g i1 j1))
      c (fun j ret => body i j ret) t
      ⟨ht1, ht2, ht3, fun i1 j1 hj1 h => by
        rcases h with h | ⟨_, h⟩
        · exact ht4 i1 j1 h hj1
        · exact absurd h (Nat.not_lt_zero j1)⟩ ?_
    · obtain ⟨t1, ht1run, h1, h2, h3, h4⟩ := inner
      refine ⟨t1, ht1run, h1, h2, h3, ?_⟩
      intro i1 j1 hi1 hj1
      apply h4 i1 j1 hj1
      rcases Nat.lt_succ_iff_lt_or_eq.mp hi1 with h | h
      · exact Or.inl h
      · exact Or.inr ⟨h, hj1⟩
    · intro j hj u ⟨hu1, hu2, hu3, hu4⟩
      obtain ⟨u1, hset, h1, h2, h3, h4, h5⟩ :=
        RowMatrix.SetElem_spec u (g i j) hu1 hu2 hu3 hi hj
      refine ⟨u1, ?_, h1, h2, h3, ?_⟩
      · show body i j u = some u1
        rw [hbody i j u hi hj hu1 hu2 hu3, hset]
      · intro i1 j1 hj1 hcase
        by_cases he : i1 = i ∧ j1 = j
        · rw [he.1, he.2]
          exact h4
        · have hne : i1 ≠ i ∨ j1 ≠ j := by
            by_cases h : i1 = i
            · exact Or.inr fun e => he ⟨h, e⟩
            · exact Or.inl h
          rw [h5 i1 j1 hj1 hne]
          apply hu4 i1 j1 hj1
          rcases hcase with h | ⟨h, hlt⟩
          · exact Or.inl h
          · rcases Nat.lt_succ_iff_lt_or_eq.mp hlt with h6 | h6
            · exact Or.inr ⟨h, h6⟩
            · exact absurd ⟨h, h6⟩ he

/-- The constructor returns a matrix of the requested dimensions when the number of elements
fits in an `int`. -/
theorem RowMatrix.construct_dims {T : Type} (r c : Nat) (hr : r ≤ INT_MAX) (hc : c ≤ INT_MAX)
    (garbage : Nat → T) (hb : r * c ≤ INT_MAX) :
    ∃ m, RowMatrix.construct r c hr hc garbage = some m ∧ m.rows = r ∧ m.cols = c ∧
      m.linear.length = r * c := by
  refine ⟨_, dif_pos hb, rfl, rfl, ?_⟩
  simp

/-- The constructor returns no matrix when the number of elements does not fit in an `int`. -/
theorem RowMatrix.construct_overflow {T : Type} (r c : Nat) (hr : r ≤ INT_MAX)
    (hc : c ≤ INT_MAX) (garbage : Nat → T) (hb : ¬ r * c ≤ INT_MAX) :
    RowMatrix.construct r c hr hc garbage = none :=
  dif_neg hb

/-- With matching dimensions `AddMatrices` returns the elementwise sum. -/
theorem RowMatrixOperations.AddMatrices_ok {T : Type} [Semiring T] (mat1 mat2 : RowMatrix T)
    (garbage : Nat → T)
    (h1 : mat1.linear.length = mat1.rows * mat1.cols)
    (h2 : mat2.linear.length = mat2.rows * mat2.cols)
    (hrows : mat1.rows = mat2.rows) (hcols : mat1.cols = mat2.cols) :
    ∃ ret, RowMatrixOperations.AddMatrices mat1 mat2 garbage = some (some ret) ∧
      ret.rows = mat1.rows ∧ ret.cols = mat1.cols ∧
      ret.linear.length = ret.rows * ret.cols ∧
      ∀ i j, i < mat1.rows → j < mat1.cols →
        ret.GetElem i j = some (mat1.entry i j + mat2.entry i j) := by
  have hb : mat1.rows * mat1.cols ≤ INT_MAX := h1 ▸ mat1.linear_int
  obtain ⟨ret0, hcons, d1, d2, d3⟩ :=
    RowMatrix.construct_dims mat1.rows mat1.cols mat1.rows_int mat1.cols_int garbage hb
  obtain ⟨ret, hret, r1, r2, r3, r4⟩ := RowMatrix.fill mat1.rows mat1.cols
    (fun i j => mat1.entry i j + mat2.entry i j)
    (fun i j ret => (mat1.GetElem i j).bind fun a => (mat2.GetElem i j).bind fun b =>
      ret.SetElem i j (a + b))
    (by
      intro i j ret hi hj _ _ _
      beta_reduce
      rw [RowMatrix.GetElem_eq_entry mat1 h1 hi hj,
        RowMatrix.GetElem_eq_entry mat2 h2 (hrows ▸ hi) (hcols ▸ hj)]
      rfl)
    ret0 d1 d2 d3
  refine ⟨ret, ?_, r1, r2, by rw [r1, r2]; exact r3, r4⟩
  simp only [RowMatrixOperations.AddMatrices, RowMatrix.GetRows, RowMatrix.GetColumns]
  rw [if_neg (by simp [hrows, hcols]), hcons, Option.some_bind, hret]
  rfl

/-- With mismatched dimensions `AddMatrices` returns `nullptr`. -/
theorem RowMatrixOperations.AddMatrices_mismatch {T : Type} [Semiring T]
    (mat1 mat2 : RowMatrix T) (garbage : Nat → T)
    (h : mat1.rows ≠ mat2.rows ∨ mat1.cols ≠ mat2.cols) :
    RowMatrixOperations.AddMatrices mat1 mat2 garbage = some none := by
  simp only [RowMatrixOperations.AddMatrices, RowMatrix.GetRows, RowMatrix.GetColumns]
  rw [if_pos h]

/-- The innermost loop of `MultiplyMatrices` computes the dot product of row `i` of `mat1`
and column `j` of `mat2`. -/
theorem RowMatrixOperations.dot_loop {T : Type} [Semiring T] (mat1 mat2 : RowMatrix T)
    (h1 : mat1.linear.length = mat1.rows * mat1.cols)
    (h2 : mat2.linear.length = mat2.rows * mat2.cols)
    (hdim : mat1.cols = mat2.rows) {i j : Nat} (hi : i < mat1.rows) (hj : j < mat2.cols) :
    forLoop mat1.cols (fun k val =>
        (mat1.GetElem i k).bind fun a => (mat2.GetElem k j).bind fun b => some (val + a * b)) 0
      = some (∑ k in Finset.range mat1.cols, mat1.entry i k * mat2.entry k j) := by
  obtain ⟨v, hv, hP⟩ := forLoop_inv
    (fun n (val : T) => val = ∑ k in Finset.range n, mat1.entry i k * mat2.entry k j)
    mat1.cols (fun k val =>
        (mat1.GetElem i k).bind fun a => (mat2.GetElem k j).bind fun b => some (val + a * b)) 0
    (by simp)
    (by
      intro k hk t ht
      refine ⟨t + mat1.entry i k * mat2.entry k j, ?_, ?_⟩
      · show ((mat1.GetElem i k).bind fun a => (mat2.GetElem k j).bind fun b =>
          some (t + a * b)) = _
        rw [RowMatrix.GetElem_eq_entry mat1 h1 hi hk,
          RowMatrix.GetElem_eq_entry mat2 h2 (hdim ▸ hk) hj]
        rfl
      · beta_reduce
        rw [Finset.sum_range_succ, ht])
  rw [hv, hP]

/-- With matching dimensions and a result whose number of elements fits in an `int`,
`MultiplyMatrices` returns the matrix product. -/
theorem RowMatrixOperations.MultiplyMatrices_ok {T : Type} [Semiring T]
    (mat1 mat2 : RowMatrix T) (garbage : Nat → T)
    (h1 : mat1.linear.length = mat1.rows * mat1.cols)
    (h2 : mat2.linear.length = mat2.rows * mat2.cols)
    (hdim : mat1.cols = mat2.rows) (hb : mat1.rows * mat2.cols ≤ INT_MAX) :
    ∃ ret, RowMatrixOperations.MultiplyMatrices mat1 mat2 garbage = some (some ret) ∧
      ret.rows = mat1.rows ∧ ret.cols = mat2.cols ∧
      ret.linear.length = ret.rows * ret.cols ∧
      ∀ i j, i < mat1.rows → j < mat2.cols →
        ret.GetElem i j =
          some (∑ k in Finset.range mat1.cols, mat1.entry i k * mat2.entry k j) := by
  obtain ⟨ret0, hcons, d1, d2, d3⟩ :=
    RowMatrix.construct_dims mat1.rows mat2.cols mat1.rows_int mat2.cols_int garbage hb
  obtain ⟨ret, hret, r1, r2, r3, r4⟩ := RowMatrix.fill mat1.rows mat2.cols
    (fun i j => ∑ k in Finset.range mat1.cols, mat1.entry i k * mat2.entry k j)
    (fun i j ret => (forLoop mat1.cols (fun k val =>
        (mat1.GetElem i k).bind fun a => (mat2.GetElem k j).bind fun b => some (val + a * b))
        0).bind fun val => ret.SetElem i j val)
    (by
      intro i j ret hi hj _ _ _
      beta_reduce
      rw [RowMatrixOperations.dot_loop mat1 mat2 h1 h2 hdim hi hj]
      rfl)
    ret0 d1 d2 d3
  refine ⟨ret, ?_, r1, r2, by rw [r1, r2]; exact r3, r4⟩
  simp only [RowMatrixOperations.MultiplyMatrices, RowMatrix.GetRows, RowMatrix.GetColumns]
  rw [if_neg (by simp [hdim]), hcons, Option.some_bind, hret]
  rfl

/-- With mismatched dimensions `MultiplyMatrices` returns `nullptr`. -/
theorem RowMatrixOperations.MultiplyMatrices_mismatch {T : Type} [Semiring T]
    (mat1 mat2 : RowMatrix T) (garbage : Nat → T) (h : mat1.cols ≠ mat2.rows) :
    RowMatrixOperations.MultiplyMatrices mat1 mat2 garbage = some none := by
  simp only [RowMatrixOperations.MultiplyMatrices, RowMatrix.GetRows, RowMatrix.GetColumns]
  rw [if_pos h]

/-- With matching dimensions and a result whose number of elements does not fit in an
`int`, `MultiplyMatrices` returns no result. -/
theorem RowMatrixOperations.MultiplyMatrices_overflow {T : Type} [Semiring T]
    (mat1 mat2 : RowMatrix T) (garbage : Nat → T) (hdim : mat1.cols = mat2.rows)
    (hb : ¬ mat1.rows * mat2.cols ≤ INT_MAX) :
    RowMatrixOperations.MultiplyMatrices mat1 mat2 garbage = none := by
  simp only [RowMatrixOperations.MultiplyMatrices, RowMatrix.GetRows, RowMatrix.GetColumns]
  rw [if_neg (by simp [hdim]),
    RowMatrix.construct_overflow mat1.rows mat2.cols mat1.rows_int mat2.cols_int garbage hb]
  rfl

/-- C14 (matrix product), counterexample to the claim as stated: a 65536 by 0 matrix and a
0 by 65536 matrix are row matrices with `cols1 = rows2`, but the 65536 by 65536 result has
more elements than an `int` can count, and `MultiplyMatrices` returns neither `nullptr` nor a
matrix. -/
theorem C14_MultiplyMatrices_int_overflow :
    (RowMatrix.mk 65536 0 ([] : List Int) (by decide) (by decide) (by decide)).cols =
      (RowMatrix.mk 0 65536 ([] : List Int) (by decide) (by decide) (by decide)).rows ∧
    RowMatrixOperations.MultiplyMatrices
      (RowMatrix.mk 65536 0 ([] : List Int) (by decide) (by decide) (by decide))
      (RowMatrix.mk 0 65536 ([] : List Int) (by decide) (by decide) (by decide))
      (fun _ => 0) = none ∧
    ¬ ∃ ret, RowMatrixOperations.MultiplyMatrices
      (RowMatrix.mk 65536 0 ([] : List Int) (by decide) (by decide) (by decide))
      (RowMatrix.mk 0 65536 ([] : List Int) (by decide) (by decide) (by decide))
      (fun _ => 0) = some (some ret) := by
  have h : RowMatrixOperations.MultiplyMatrices
      (RowMatrix.mk 65536 0 ([] : List Int) (by decide) (by decide) (by decide))
      (RowMatrix.mk 0 65536 ([] : List Int) (by decide) (by decide) (by decide))
      (fun _ => 0) = none := by decide
  refine ⟨rfl, h, ?_⟩
  rintro ⟨ret, hret⟩
  rw [h] at hret
  cases hret

/-- C14 (matrix product), as amended: for row matrices `mat1` and `mat2` whose arrays have
`rows * cols` elements, `MultiplyMatrices` returns `nullptr` exactly when
`mat1.cols ≠ mat2.rows`; and when `mat1.cols = mat2.rows` and the number
`mat1.rows * mat2.cols` of elements of the result is at most `INT_MAX`, it returns a matrix
with `mat1.rows` rows and `mat2.cols` columns whose element `(i, j)` is the sum over
`k < mat1.cols` of `mat1(i, k) * mat2(k, j)`. -/
theorem C14_MultiplyMatrices {T : Type} [Semiring T] (mat1 mat2 : RowMatrix T)
    (garbage : Nat → T)
    (h1 : mat1.linear.length = mat1.rows * mat1.cols)
    (h2 : mat2.linear.length = mat2.rows * mat2.cols) :
    (RowMatrixOperations.MultiplyMatrices mat1 mat2 garbage = some none ↔
      mat1.cols ≠ mat2.rows) ∧
    (mat1.cols = mat2.rows → mat1.rows * mat2.cols ≤ INT_MAX →
      ∃ ret, RowMatrixOperations.MultiplyMatrices mat1 mat2 garbage = some (some ret) ∧
        ret.rows = mat1.rows ∧ ret.cols = mat2.cols ∧
        ∀ i j, i < mat1.rows → j < mat2.cols →
          ret.GetElem i j =
            some (∑ k in Finset.range mat1.cols, mat1.entry i k * mat2.entry k j)) := by
  constructor
  · constructor
    · intro hnull hdim
      by_cases hb : mat1.rows * mat2.cols ≤ INT_MAX
      · obtain ⟨ret, hret, _⟩ :=
          RowMatrixOperations.MultiplyMatrices_ok mat1 mat2 garbage h1 h2 hdim hb
        rw [hret] at hnull
        cases hnull
      · rw [RowMatrixOperations.MultiplyMatrices_overflow mat1 mat2 garbage hdim hb] at hnull
        cases hnull
    · exact RowMatrixOperations.MultiplyMatrices_mismatch mat1 mat2 garbage
  · intro hdim hb
    obtain ⟨ret, hret, r1, r2, _, r4⟩ :=
      RowMatrixOperations.MultiplyMatrices_ok mat1 mat2 garbage h1 h2 hdim hb
    exact ⟨ret, hret, r1, r2, r4⟩

/-- Witness of C14: a 2 by 3 integer matrix times a 3 by 2 integer matrix; element `(0, 0)`
of the product is `1*7 + 2*9 + 3*11 = 58`. -/
theorem C14_MultiplyMatrices_witness :
    ([1, 2, 3, 4, 5, 6] : List Int).length = 2 * 3 ∧
    ([7, 8, 9, 10, 11, 12] : List Int).length = 3 * 2 ∧
    ∃ ret, RowMatrixOperations.MultiplyMatrices
        (RowMatrix.mk 2 3 [1, 2, 3, 4, 5, 6] (by decide) (by decide) (by decide))
        (RowMatrix.mk 3 2 [7, 8, 9, 10, 11, 12] (by decide) (by decide) (by decide))
        (fun _ => (0 : Int)) = some (some ret) ∧
      ret.rows = 2 ∧ ret.cols = 2 ∧ ret.GetElem 0 0 = some 58 :=
  ⟨by decide, by decide,
    ((C14_MultiplyMatrices
      (RowMatrix.mk 2 3 [1, 2, 3, 4, 5, 6] (by decide) (by decide) (by decide))
      (RowMatrix.mk 3 2 [7, 8, 9, 10, 11, 12] (by decide) (by decide) (by decide))
      (fun _ => (0 : Int)) (by decide) (by decide)).2 (by decide) (by decide)).imp fun _ h =>
      ⟨h.1, h.2.1, h.2.2.1, (h.2.2.2 0 0 (by decide) (by decide)).trans (by decide)⟩⟩

/-- C15 (matrix sum): for row matrices `mat1` and `mat2` whose arrays have `rows * cols`
elements, `AddMatrices` is defined; it returns `nullptr` exactly when the row counts or the
column counts differ, and otherwise a matrix of the dimensions of `mat1` whose element
`(i, j)` is `mat1(i, j) + mat2(i, j)`. -/
theorem C15_AddMatrices {T : Type} [Semiring T] (mat1 mat2 : RowMatrix T)
    (garbage : Nat → T)
    (h1 : mat1.linear.length = mat1.rows * mat1.cols)
    (h2 : mat2.linear.length = mat2.rows * mat2.cols) :
    (RowMatrixOperations.AddMatrices mat1 mat2 garbage = some none ↔
      (mat1.rows ≠ mat2.rows ∨ mat1.cols ≠ mat2.cols)) ∧
    (mat1.rows = mat2.rows → mat1.cols = mat2.cols →
      ∃ ret, RowMatrixOperations.AddMatrices mat1 mat2 garbage = some (some ret) ∧
        ret.rows = mat1.rows ∧ ret.cols = mat1.cols ∧
        ∀ i j, i < mat1.rows → j < mat1.cols →
          ret.GetElem i j = some (mat1.entry i j + mat2.entry i j)) := by
  constructor
  · constructor
    · intro hnull
      by_contra hne
      have hrows : mat1.rows = mat2.rows := by
        by_contra h
        exact hne (Or.inl h)
      have hcols : mat1.cols = mat2.cols := by
        by_contra h
        exact hne (Or.inr h)
      obtain ⟨ret, hret, _⟩ :=
        RowMatrixOperations.AddMatrices_ok mat1 mat2 garbage h1 h2 hrows hcols
      rw [hret] at hnull
      cases hnull
    · exact RowMatrixOperations.AddMatrices_mismatch mat1 mat2 garbage
  · intro hrows hcols
    obtain ⟨ret, hret, r1, r2, _, r4⟩ :=
      RowMatrixOperations.AddMatrices_ok mat1 mat2 garbage h1 h2 hrows hcols
    exact ⟨ret, hret, r1, r2, r4⟩

/-- Witness of C15: the sum of two 2 by 2 integer matrices; element `(1, 0)` of the sum is
`3 + 7 = 10`. -/
theorem C15_AddMatrices_witness :
    ([1, 2, 3, 4] : List Int).length = 2 * 2 ∧
    ([5, 6, 7, 8] : List Int).length = 2 * 2 ∧
    ∃ ret, RowMatrixOperations.AddMatrices
        (RowMatrix.mk 2 2 [1, 2, 3, 4] (by decide) (by decide) (by decide))
        (RowMatrix.mk 2 2 [5, 6, 7, 8] (by decide) (by decide) (by decide))
        (fun _ => (0 : Int)) = some (some ret) ∧
      ret.rows = 2 ∧ ret.cols = 2 ∧ ret.GetElem 1 0 = some 10 :=
  ⟨by decide, by decide,
    ((C15_AddMatrices (RowMatrix.mk 2 2 [1, 2, 3, 4] (by decide) (by decide) (by decide))
      (RowMatrix.mk 2 2 [5, 6, 7, 8] (by decide) (by decide) (by decide))
      (fun _ => (0 : Int)) (by decide) (by decide)).2 (by decide) (by decide)).imp fun _ h =>
      ⟨h.1, h.2.1, h.2.2.1, (h.2.2.2 1 0 (by decide) (by decide)).trans (by decide)⟩⟩

end bustub
